import Mathlib

/-!
Verification of the tail-ease scaffolding CLI (src/TailEase.js).

The file shallowly embeds the program's logic in Lean:
* the step-4 `vite.config.js` text patch (lines 131-147 of the source) as pure
  functions on `List Char`;
* the interactive prompt loop, the six-step pipeline, its subprocess exit
  handling and the CLI entry wrapper (lines 40-44, 68-199) as a pure function
  of an environment that fixes every external outcome (user input lines,
  subprocess exit codes, file-system results).
Strings are `List Char`; JavaScript's `String.prototype.includes`,
`String.prototype.replace` (first occurrence only), the regex
`/plugins:\s*\[/` and `String.prototype.trim` are modelled character by
character.
-/

/-- The set of characters matched by JavaScript's `\s` (also the set trimmed
by `String.prototype.trim`): space, tab, LF, VT, FF, CR, NBSP and the Unicode
space separators, line/paragraph separators and BOM. -/
def jsWs (c : Char) : Bool :=
  c = ' ' || c = '\t' || c = '\n' || c = '\x0b' || c = '\x0c' || c = '\r' ||
  c.val = 0xa0 || c.val = 0x1680 || (0x2000 ≤ c.val && c.val ≤ 0x200a) ||
  c.val = 0x2028 || c.val = 0x2029 || c.val = 0x202f || c.val = 0x205f ||
  c.val = 0x3000 || c.val = 0xfeff

/-- JavaScript `String.prototype.trim`: drop `jsWs` characters from both ends
(source line 42: `ans.trim()`). -/
def trimJs (s : List Char) : List Char :=
  ((s.dropWhile jsWs).reverse.dropWhile jsWs).reverse

/-- Split a character list at every occurrence of `sep` (the separator is
dropped); always returns at least one (possibly empty) chunk. -/
def splitOnChar (sep : Char) : List Char → List (List Char)
  | [] => [[]]
  | c :: rest =>
    if c = sep then [] :: splitOnChar sep rest
    else
      match splitOnChar sep rest with
      | [] => [[c]]
      | l :: ls => (c :: l) :: ls

/-- The lines of a text, splitting at every newline. -/
def splitLines (s : List Char) : List (List Char) := splitOnChar '\n' s

/-- JavaScript `haystack.includes(pat)`: `pat` occurs as a contiguous
substring. -/
def containsSub (pat : List Char) : List Char → Bool
  | [] => pat.isEmpty
  | c :: rest => pat.isPrefixOf (c :: rest) || containsSub pat rest

/-- JavaScript `s.replace(pat, repl)` for a string pattern: replace the first
(leftmost) occurrence of `pat` only; if `pat` does not occur, return `s`
unchanged. -/
def replaceFirst (pat repl : List Char) : List Char → List Char
  | [] => if pat.isEmpty then repl else []
  | c :: rest =>
    if pat.isPrefixOf (c :: rest) then repl ++ (c :: rest).drop pat.length
    else c :: replaceFirst pat repl rest

/-- Greedy two-pointer subsequence test: `isSubseq a b` decides whether `a`
is a (not necessarily contiguous) subsequence of `b`; used to state "every
character of the original content is preserved". -/
def isSubseq : List Char → List Char → Bool
  | [], _ => true
  | _ :: _, [] => false
  | a :: as, b :: bs => if a = b then isSubseq as bs else isSubseq (a :: as) bs

/-- `"import react from '@vitejs/plugin-react'"` (source line 135). -/
def reactImp : List Char := "import react from '@vitejs/plugin-react'".data

/-- `"import tailwindcss from '@tailwindcss/vite'"` (source lines 133, 136). -/
def twImport : List Char := "import tailwindcss from '@tailwindcss/vite'".data

/-- `"tailwindcss()"` (source line 140). -/
def twCall : List Char := "tailwindcss()".data

/-- `"plugins:"`, the literal head of the regex `/plugins:\s*\[/`
(source line 142). -/
def plgColon : List Char := "plugins:".data

/-- `"plugins: [\n    tailwindcss(),"`, the replacement text of the regex
substitution (source line 143). -/
def arrRepl : List Char := "plugins: [\n    tailwindcss(),".data

/-- Attempt to match the regex `/plugins:\s*\[/` at the start of `s`.  The
regex's `\s*` is greedy and is followed by the literal `[`, which is not a
whitespace character, so a JavaScript match at this position consumes
`"plugins:"`, then the maximal run of `\s` characters, then requires `[`.
Returns the matched text and the remainder after it. -/
def pluginsMatchAt (s : List Char) : Option (List Char × List Char) :=
  if plgColon.isPrefixOf s then
    match (s.drop plgColon.length).dropWhile jsWs with
    | c :: tail =>
      if c = '[' then
        some (plgColon ++ (s.drop plgColon.length).takeWhile jsWs ++ ['['], tail)
      else none
    | [] => none
  else none

/-- JavaScript `config.replace(/plugins:\s*\[/, "plugins: [\n    tailwindcss(),")`
(source lines 141-144): replace the leftmost match of the regex, scanning
position by position; if there is no match, return the text unchanged. -/
def replacePlugins : List Char → List Char
  | [] => []
  | c :: rest =>
    match pluginsMatchAt (c :: rest) with
    | some (_, tail) => arrRepl ++ tail
    | none => c :: replacePlugins rest

/-- Source lines 133-138: insert the tailwind import line right after the
react import line, unless the tailwind import is already present. -/
def patchImport (c : List Char) : List Char :=
  if containsSub twImport c then c
  else replaceFirst reactImp (reactImp ++ '\n' :: twImport) c

/-- Source lines 140-145: insert `tailwindcss(),` at the head of the
`plugins:` array via the regex substitution, unless `tailwindcss()` is
already present. -/
def patchPlugins (c : List Char) : List Char :=
  if containsSub twCall c then c else replacePlugins c

/-- The whole step-4 patch transformation applied to the text of
`vite.config.js` (source lines 131-147, between the read and the write);
the spec calls it `patchBuildConfig`. -/
def patchBuildConfig (c : List Char) : List Char :=
  patchPlugins (patchImport c)

/-- Whether the regex `/plugins:\s*\[/` matches anywhere in the text. -/
def hasPluginsMatch : List Char → Bool
  | [] => false
  | c :: rest => (pluginsMatchAt (c :: rest)).isSome || hasPluginsMatch rest

/-- Whether every match of `/plugins:\s*\[/` in the text is the exact text
`"plugins: ["` (a single space between the colon and the bracket). -/
def allMatchesSingleSpace : List Char → Bool
  | [] => true
  | c :: rest =>
    (match pluginsMatchAt (c :: rest) with
     | some (m, _) => m = plgColon ++ [' ', '[']
     | none => true) && allMatchesSingleSpace rest

/-- The text matched by the regex at one position: `"plugins:"`, a whitespace
run, `[`. -/
def matchText (ws : List Char) : List Char := plgColon ++ ws ++ ['[']

/-- The characters the regex substitution inserts after the matched
`"plugins: ["`. -/
def arrIns : List Char := "\n    tailwindcss(),".data

/-! ### Basic facts about the string primitives -/

theorem containsSub_iff (pat s : List Char) : containsSub pat s = true ↔ pat <:+: s := by
  induction s with
  | nil =>
    simp [containsSub, List.isEmpty_iff]
  | cons c rest ih =>
    simp [containsSub, List.isPrefixOf_iff_prefix, ih, List.infix_cons_iff]

theorem memOfGetLast? {l : List Char} {a : Char} (h : l.getLast? = some a) : a ∈ l :=
  List.mem_of_mem_getLast? (by simp [h])

theorem getLast?_append_right {l r : List Char} (h : r ≠ []) :
    (l ++ r).getLast? = r.getLast? := by
  rw [ List.getLast?_append]
  rcases hr : r.getLast? with _ | c
  · cases r with
    | nil => exact absurd rfl h
    | cons a t => simp [ List.getLast?_cons] at hr
  · rfl

theorem replaceFirst_of_not_infix {pat s : List Char} (repl : List Char) (hne : pat ≠ [])
    (h : ¬ pat <:+: s) : replaceFirst pat repl s = s := by
  induction s with
  | nil => simp [replaceFirst, List.isEmpty_iff, hne]
  | cons c rest ih =>
    have h1 : ¬ (pat.isPrefixOf (c :: rest) = true) := by
      rw [ List.isPrefixOf_iff_prefix]
      exact fun hp => h hp.isInfix
    have h2 : ¬ pat <:+: rest := fun hi => h (hi.trans ( List.suffix_cons c rest).isInfix)
    rw [replaceFirst, if_neg h1, ih h2]

theorem replaceFirst_decomp {pat s : List Char} (repl : List Char) (h : pat <:+: s) :
    ∃ x y, s = x ++ pat ++ y ∧ replaceFirst pat repl s = x ++ repl ++ y := by
  induction s with
  | nil =>
    obtain rfl : pat = [] := by simpa using h
    exact ⟨[], [], rfl, by simp [replaceFirst]⟩
  | cons c rest ih =>
    by_cases hp : pat.isPrefixOf (c :: rest) = true
    · obtain ⟨t, ht⟩ := List.isPrefixOf_iff_prefix.mp hp
      refine ⟨[], t, by simp [← ht], ?_⟩
      rw [replaceFirst, if_pos hp, ← ht, List.drop_left]
      simp
    · have h2 : pat <:+: rest := by
        rcases List.infix_cons_iff.mp h with h1 | h1
        · exact absurd ( List.isPrefixOf_iff_prefix.mpr h1) hp
        · exact h1
      obtain ⟨x, y, hxy, hr⟩ := ih h2
      refine ⟨c :: x, y, by simp [hxy], ?_⟩
      rw [replaceFirst, if_neg hp, hr]
      simp

theorem takeWhile_append_of_all {p : Char → Bool} {ws : List Char} (l : List Char)
    (h : ∀ c ∈ ws, p c = true) :
    (ws ++ l).takeWhile p = ws ++ l.takeWhile p ∧ (ws ++ l).dropWhile p = l.dropWhile p := by
  induction ws with
  | nil => simp
  | cons a ws ih =>
    have ha : p a = true := h a (by simp)
    have ht := ih (fun c hc => h c (by simp [hc]))
    simp [List.takeWhile_cons, List.dropWhile_cons, ha, ht.1, ht.2]

theorem pluginsMatchAt_some {s m t : List Char} (h : pluginsMatchAt s = some (m, t)) :
    ∃ ws, (∀ c ∈ ws, jsWs c = true) ∧ m = matchText ws ∧ s = matchText ws ++ t := by
  unfold pluginsMatchAt at h
  by_cases hp : plgColon.isPrefixOf s = true
  · rw [if_pos hp] at h
    rcases hdw : (s.drop plgColon.length).dropWhile jsWs with _ | ⟨c, tail⟩
    · rw [hdw] at h; exact absurd h (by simp)
    · rw [hdw] at h
      dsimp only at h
      by_cases hc : c = '['
      · rw [if_pos hc] at h
        simp only [Option.some.injEq, Prod.mk.injEq] at h
        obtain ⟨hm, rfl⟩ := h
        subst hc
        refine ⟨(s.drop plgColon.length).takeWhile jsWs,
          fun c hc => List.mem_takeWhile_imp hc, ?_, ?_⟩
        · rw [← hm]; simp [matchText, List.append_assoc]
        · obtain ⟨q, hq⟩ := List.isPrefixOf_iff_prefix.mp hp
          have hdrop : s.drop plgColon.length = q := by rw [← hq, List.drop_left]
          rw [hdrop] at hdw ⊢
          have hsplit : q.takeWhile jsWs ++ q.dropWhile jsWs = q :=
            List.takeWhile_append_dropWhile jsWs q
          rw [← hq, matchText]
          simp only [List.append_assoc, List.singleton_append]
          rw [← hdw, hsplit]
      · rw [if_neg hc] at h; exact absurd h (by simp)
  · rw [if_neg hp] at h; exact absurd h (by simp)

theorem pluginsMatchAt_shape {ws : List Char} (y : List Char)
    (hws : ∀ c ∈ ws, jsWs c = true) :
    pluginsMatchAt (matchText ws ++ y) = some (matchText ws, y) := by
  have hpre : plgColon.isPrefixOf (matchText ws ++ y) = true := by
    rw [ List.isPrefixOf_iff_prefix, matchText]
    simp only [List.append_assoc]
    exact List.prefix_append _ _
  have hdrop : (matchText ws ++ y).drop plgColon.length = ws ++ '[' :: y := by
    rw [matchText]
    simp only [List.append_assoc, List.singleton_append]
    exact List.drop_left _ _
  have hbr : jsWs '[' = false := by decide
  have htw := takeWhile_append_of_all ('[' :: y) hws
  unfold pluginsMatchAt
  rw [if_pos hpre, hdrop, htw.2, List.dropWhile_cons, hbr]
  simp only [Bool.false_eq_true, if_false, if_pos rfl]
  rw [htw.1, List.takeWhile_cons, hbr]
  simp [matchText, List.append_assoc]

theorem replacePlugins_cons_of_some {s m t : List Char}
    (h : pluginsMatchAt s = some (m, t)) (hne : s ≠ []) :
    replacePlugins s = arrRepl ++ t := by
  cases s with
  | nil => exact absurd rfl hne
  | cons c rest => rw [replacePlugins, h]

theorem replacePlugins_eq_or (s : List Char) :
    replacePlugins s = s ∨
    ∃ x ws y, (∀ c ∈ ws, jsWs c = true) ∧ s = x ++ matchText ws ++ y ∧
      replacePlugins s = x ++ arrRepl ++ y := by
  induction s with
  | nil => exact Or.inl rfl
  | cons c rest ih =>
    rw [replacePlugins]
    rcases hma : pluginsMatchAt (c :: rest) with _ | ⟨m, tail⟩
    · rcases ih with h | ⟨x, ws, y, h1, h2, h3⟩
      · exact Or.inl (by rw [h])
      · exact Or.inr ⟨c :: x, ws, y, h1, by simp [h2], by simp [h3]⟩
    · right
      obtain ⟨ws, hws, hm, hs⟩ := pluginsMatchAt_some hma
      exact ⟨[], ws, tail, hws, by simpa using hs, by simp⟩

theorem replacePlugins_of_no_match {s : List Char} (h : hasPluginsMatch s = false) :
    replacePlugins s = s := by
  induction s with
  | nil => rfl
  | cons c rest ih =>
    rw [hasPluginsMatch] at h
    rcases hma : pluginsMatchAt (c :: rest) with _ | ⟨m, tail⟩
    · rw [hma] at h
      simp only [Option.isSome_none, Bool.false_or] at h
      rw [replacePlugins, hma, ih h]
    · rw [hma] at h; simp at h

theorem replacePlugins_of_match {ws : List Char} (x y : List Char)
    (hws : ∀ c ∈ ws, jsWs c = true) :
    ∃ u ws' v, (∀ c ∈ ws', jsWs c = true) ∧
      x ++ matchText ws ++ y = u ++ matchText ws' ++ v ∧
      replacePlugins (x ++ matchText ws ++ y) = u ++ arrRepl ++ v := by
  induction x with
  | nil =>
    refine ⟨[], ws, y, hws, by simp, ?_⟩
    simp only [List.nil_append]
    rw [replacePlugins_cons_of_some (pluginsMatchAt_shape y hws)
      (by simp [matchText, plgColon])]
  | cons a x ih =>
    obtain ⟨u, ws', v, h1, h2, h3⟩ := ih
    rcases hma : pluginsMatchAt (a :: (x ++ matchText ws ++ y)) with _ | ⟨m, tail⟩
    · refine ⟨a :: u, ws', v, h1, ?_, ?_⟩
      · simp only [List.cons_append, List.append_assoc] at h2 ⊢
        rw [h2]
      · have : (a :: x) ++ matchText ws ++ y = a :: (x ++ matchText ws ++ y) := by simp
        rw [this, replacePlugins, hma, h3]
        simp
    · obtain ⟨ws2, hws2, hm2, hs2⟩ := pluginsMatchAt_some hma
      refine ⟨[], ws2, tail, hws2, ?_, ?_⟩
      · simp only [List.nil_append, ← hs2]
        simp
      · have : (a :: x) ++ matchText ws ++ y = a :: (x ++ matchText ws ++ y) := by simp
        rw [this, replacePlugins, hma]
        simp

/-! ### Occurrence analysis: where a needle can sit across an append -/

theorem prefix_append_cases {N A B : List Char} (h : N <+: A ++ B) :
    N <+: A ∨ ∃ n2, N = A ++ n2 ∧ n2 <+: B := by
  rcases List.prefix_or_prefix_of_prefix h ( List.prefix_append A B) with h1 | h1
  · exact Or.inl h1
  · obtain ⟨n2, rfl⟩ := h1
    refine Or.inr ⟨n2, rfl, ?_⟩
    obtain ⟨t, ht⟩ := h
    rw [List.append_assoc] at ht
    exact ⟨t, List.append_cancel_left ht⟩

theorem infix_append_cases {N A B : List Char} (h : N <:+: A ++ B) :
    N <:+: A ∨ N <:+: B ∨
    ∃ n1 n2, N = n1 ++ n2 ∧ n1 ≠ [] ∧ n2 ≠ [] ∧ n1 <:+ A ∧ n2 <+: B := by
  induction A with
  | nil => exact Or.inr (Or.inl (by simpa using h))
  | cons a A ih =>
    rw [List.cons_append] at h
    rcases List.infix_cons_iff.mp h with hp | hi
    · rcases N with _ | ⟨n, N'⟩
      · exact Or.inl List.nil_infix
      · obtain ⟨t, ht⟩ := hp
        rw [List.cons_append] at ht
        injection ht with h1 h2
        subst h1
        rcases prefix_append_cases ⟨t, h2⟩ with hNA | ⟨n2, rfl, hn2⟩
        · obtain ⟨t', rfl⟩ := hNA
          exact Or.inl ⟨[], t', by simp⟩
        · rcases n2 with _ | ⟨b, n2'⟩
          · exact Or.inl (by simp)
          · refine Or.inr (Or.inr ⟨n :: A, b :: n2', by simp, by simp, by simp,
              List.suffix_refl _, hn2⟩)
    · rcases ih hi with h1 | h1 | ⟨n1, n2, hN, hn1, hn2, hsuf, hpre⟩
      · exact Or.inl (h1.trans ( List.suffix_cons a A).isInfix)
      · exact Or.inr (Or.inl h1)
      · exact Or.inr (Or.inr ⟨n1, n2, hN, hn1, hn2, hsuf.trans ( List.suffix_cons a A), hpre⟩)

/-- If a needle `N` occurs in `A ++ M ++ B`, but some character of `N` misses
`M`, the last character of `M` misses `N` and the last character of `N` misses
`M`, then the occurrence lies entirely in `A` or entirely in `B`. -/
theorem infix_mid_cases {N A M B : List Char} (h : N <:+: A ++ M ++ B)
    {c0 : Char} (hc0N : c0 ∈ N) (hc0M : c0 ∉ M)
    {mc : Char} (hmc : M.getLast? = some mc) (hmcN : mc ∉ N)
    {nc : Char} (hnc : N.getLast? = some nc) (hncM : nc ∉ M) :
    N <:+: A ∨ N <:+: B := by
  rw [List.append_assoc] at h
  rcases infix_append_cases h with h1 | h1 | ⟨n1, n2, rfl, hn1, hn2, hsuf, hpre⟩
  · exact Or.inl h1
  · rcases infix_append_cases h1 with h2 | h2 | ⟨m1, m2, rfl, hm1, hm2, hsuf2, hpre2⟩
    · exact absurd (h2.subset hc0N) hc0M
    · exact Or.inr h2
    · obtain ⟨t, rfl⟩ := hsuf2
      rw [getLast?_append_right hm1] at hmc
      exact absurd (List.mem_append_left m2 (memOfGetLast? hmc)) hmcN
  · rcases List.prefix_or_prefix_of_prefix hpre ( List.prefix_append M B) with h2 | h2
    · rw [getLast?_append_right hn2] at hnc
      exact absurd (h2.subset (memOfGetLast? hnc)) hncM
    · exact absurd (List.mem_append_right n1 (h2.subset (memOfGetLast? hmc))) hmcN

/-- If a needle `N` occurs in `A ++ B` and the last character of `A` misses
`N`, then the occurrence lies entirely in `A` or entirely in `B` (so it
survives an insertion between `A` and `B`). -/
theorem infix_split_cases {N A B : List Char} (h : N <:+: A ++ B)
    {ac : Char} (hac : A.getLast? = some ac) (hacN : ac ∉ N) :
    N <:+: A ∨ N <:+: B := by
  rcases infix_append_cases h with h1 | h1 | ⟨n1, n2, rfl, hn1, hn2, hsuf, hpre⟩
  · exact Or.inl h1
  · exact Or.inr h1
  · obtain ⟨t, rfl⟩ := hsuf
    rw [getLast?_append_right hn1] at hac
    exact absurd (List.mem_append_left n2 (memOfGetLast? hac)) hacN

theorem infixExtL {N A : List Char} (B : List Char) (h : N <:+: A) : N <:+: A ++ B :=
  h.trans ( List.prefix_append A B).isInfix

theorem infixExtR {N B : List Char} (A : List Char) (h : N <:+: B) : N <:+: A ++ B :=
  h.trans ( List.suffix_append A B).isInfix

theorem notMem_matchText {ch : Char} {ws : List Char} (hws : ∀ c ∈ ws, jsWs c = true)
    (h1 : ch ∉ plgColon) (h2 : ch ≠ '[') (h3 : jsWs ch = false) :
    ch ∉ matchText ws := by
  intro hmem
  rcases List.mem_append.mp hmem with hm | hm
  · rcases List.mem_append.mp hm with hm2 | hm2
    · exact h1 hm2
    · have := hws ch hm2
      rw [h3] at this
      exact Bool.false_ne_true this
  · rw [List.mem_singleton] at hm
    exact h2 hm

theorem getLast?_matchText (ws : List Char) : (matchText ws).getLast? = some '[' :=
  List.getLast?_concat _

/-! ### Lines and subsequences -/

theorem splitOnChar_ne_nil (sep : Char) (s : List Char) : splitOnChar sep s ≠ [] := by
  cases s with
  | nil => simp [splitOnChar]
  | cons c rest =>
    rw [splitOnChar]
    by_cases h : c = sep
    · simp [h]
    · rw [if_neg h]
      rcases hh : splitOnChar sep rest with _ | ⟨l, ls⟩ <;> simp

theorem splitOnChar_head_prefix {sep : Char} {s l : List Char} {ls : List (List Char)}
    (h : splitOnChar sep s = l :: ls) : l <+: s := by
  induction s generalizing l ls with
  | nil =>
    rw [splitOnChar] at h
    injection h with h1 _
    rw [← h1]
  | cons c rest ih =>
    rw [splitOnChar] at h
    by_cases hc : c = sep
    · rw [if_pos hc] at h
      injection h with h1 _
      rw [← h1]
      exact List.nil_prefix
    · rw [if_neg hc] at h
      rcases hh : splitOnChar sep rest with _ | ⟨l', ls'⟩
      · exact absurd hh (splitOnChar_ne_nil sep rest)
      · rw [hh] at h
        injection h with h1 _
        obtain ⟨t, rfl⟩ := ih hh
        rw [← h1]
        exact ⟨t, by simp⟩

theorem mem_splitOnChar_infix {sep : Char} {s a : List Char}
    (h : a ∈ splitOnChar sep s) : a <:+: s := by
  induction s with
  | nil =>
    rw [splitOnChar, List.mem_singleton] at h
    rw [h]
  | cons c rest ih =>
    rw [splitOnChar] at h
    by_cases hc : c = sep
    · rw [if_pos hc, List.mem_cons] at h
      rcases h with rfl | h
      · exact List.nil_infix
      · exact (ih h).trans ( List.suffix_cons c rest).isInfix
    · rw [if_neg hc] at h
      rcases hh : splitOnChar sep rest with _ | ⟨l', ls'⟩
      · exact absurd hh (splitOnChar_ne_nil sep rest)
      · rw [hh, List.mem_cons] at h
        rcases h with rfl | h
        · obtain ⟨t, rfl⟩ := splitOnChar_head_prefix hh
          exact List.IsPrefix.isInfix ⟨t, by simp⟩
        · exact (ih (hh ▸ List.mem_cons_of_mem l' h)).trans
            ( List.suffix_cons c rest).isInfix

theorem isSubseq_of_sublist : ∀ {a b : List Char}, a.Sublist b → isSubseq a b = true := by
  intro a b h
  induction b generalizing a with
  | nil =>
    rw [List.sublist_nil.mp h]
    rfl
  | cons x bs ih =>
    cases a with
    | nil => rfl
    | cons y as =>
      by_cases hxy : y = x
      · subst hxy
        simp only [isSubseq, if_pos rfl]
        exact ih (List.cons_sublist_cons.mp h)
      · simp only [isSubseq, if_neg hxy]
        cases h with
        | cons _ h' => exact ih h'
        | cons₂ h' => exact absurd rfl hxy

/-! ### The two guarded insertions of step 4 -/

theorem patchImport_of_contains {c : List Char} (h : containsSub twImport c = true) :
    patchImport c = c := by
  unfold patchImport
  rw [if_pos h]

theorem patchImport_of_no_react {c : List Char} (h1 : containsSub twImport c = false)
    (h2 : ¬ reactImp <:+: c) : patchImport c = c := by
  unfold patchImport
  rw [if_neg (by simp [h1])]
  exact replaceFirst_of_not_infix _ (by decide) h2

theorem patchImport_decomp {c : List Char} (h1 : containsSub twImport c = false)
    (h2 : reactImp <:+: c) :
    ∃ x y, c = x ++ reactImp ++ y ∧
      patchImport c = x ++ reactImp ++ '\n' :: twImport ++ y := by
  unfold patchImport
  rw [if_neg (by simp [h1])]
  obtain ⟨x, y, hc, hr⟩ := replaceFirst_decomp (reactImp ++ '\n' :: twImport) h2
  refine ⟨x, y, hc, ?_⟩
  rw [hr]
  simp [List.append_assoc]

theorem patchPlugins_of_contains {c : List Char} (h : containsSub twCall c = true) :
    patchPlugins c = c := by
  unfold patchPlugins
  rw [if_pos h]

theorem patchPlugins_eq_or (c : List Char) :
    patchPlugins c = c ∨
    (containsSub twCall c = false ∧
     ∃ x ws y, (∀ ch ∈ ws, jsWs ch = true) ∧ c = x ++ matchText ws ++ y ∧
       patchPlugins c = x ++ arrRepl ++ y) := by
  by_cases h : containsSub twCall c = true
  · exact Or.inl (patchPlugins_of_contains h)
  · have h' : containsSub twCall c = false := Bool.eq_false_iff.mpr h
    unfold patchPlugins
    rw [if_neg h]
    rcases replacePlugins_eq_or c with he | ⟨x, ws, y, hws, hc, hr⟩
    · exact Or.inl he
    · exact Or.inr ⟨h', x, ws, y, hws, hc, hr⟩

theorem infix_mid_embed {N x m y : List Char} (h : N <:+: x ∨ N <:+: y) :
    N <:+: x ++ m ++ y := by
  rcases h with h | h
  · rw [List.append_assoc]
    exact infixExtL _ h
  · exact infixExtR _ h

theorem infix_mid_of_inner {N m : List Char} (x y : List Char) (h : N <:+: m) :
    N <:+: x ++ m ++ y :=
  infixExtL y (infixExtR x h)

theorem twImport_outside_matchText {x y ws : List Char}
    (hws : ∀ ch ∈ ws, jsWs ch = true)
    (h : twImport <:+: x ++ matchText ws ++ y) :
    twImport <:+: x ∨ twImport <:+: y :=
  infix_mid_cases h (show 'm' ∈ twImport by decide)
    (notMem_matchText hws (by decide) (by decide) (by decide))
    (getLast?_matchText ws) (show '[' ∉ twImport by decide)
    (show twImport.getLast? = some '\'' by decide)
    (notMem_matchText hws (by decide) (by decide) (by decide))

theorem reactImp_outside_matchText {x y ws : List Char}
    (hws : ∀ ch ∈ ws, jsWs ch = true)
    (h : reactImp <:+: x ++ matchText ws ++ y) :
    reactImp <:+: x ∨ reactImp <:+: y :=
  infix_mid_cases h (show 'm' ∈ reactImp by decide)
    (notMem_matchText hws (by decide) (by decide) (by decide))
    (getLast?_matchText ws) (show '[' ∉ reactImp by decide)
    (show reactImp.getLast? = some '\'' by decide)
    (notMem_matchText hws (by decide) (by decide) (by decide))

theorem twImport_outside_arrRepl {x y : List Char}
    (h : twImport <:+: x ++ arrRepl ++ y) :
    twImport <:+: x ∨ twImport <:+: y :=
  infix_mid_cases h (show 'm' ∈ twImport by decide) (show 'm' ∉ arrRepl by decide)
    (show arrRepl.getLast? = some ',' by decide) (show ',' ∉ twImport by decide)
    (show twImport.getLast? = some '\'' by decide) (show '\'' ∉ arrRepl by decide)

theorem reactImp_outside_arrRepl {x y : List Char}
    (h : reactImp <:+: x ++ arrRepl ++ y) :
    reactImp <:+: x ∨ reactImp <:+: y :=
  infix_mid_cases h (show 'm' ∈ reactImp by decide) (show 'm' ∉ arrRepl by decide)
    (show arrRepl.getLast? = some ',' by decide) (show ',' ∉ reactImp by decide)
    (show reactImp.getLast? = some '\'' by decide) (show '\'' ∉ arrRepl by decide)

theorem twImport_infix_patchPlugins {c1 : List Char} (h : twImport <:+: c1) :
    twImport <:+: patchPlugins c1 := by
  rcases patchPlugins_eq_or c1 with he | ⟨htw, x, ws, y, hws, hceq, hoeq⟩
  · rw [he]
    exact h
  · rw [hoeq]
    rw [hceq] at h
    exact infix_mid_embed (twImport_outside_matchText hws h)

theorem twImport_not_infix_patchPlugins {c1 : List Char} (h : ¬ twImport <:+: c1) :
    ¬ twImport <:+: patchPlugins c1 := by
  rcases patchPlugins_eq_or c1 with he | ⟨htw, x, ws, y, hws, hceq, hoeq⟩
  · rw [he]
    exact h
  · rw [hoeq]
    intro hin
    apply h
    rw [hceq]
    exact infix_mid_embed (twImport_outside_arrRepl hin)

theorem reactImp_not_infix_patchPlugins {c1 : List Char} (h : ¬ reactImp <:+: c1) :
    ¬ reactImp <:+: patchPlugins c1 := by
  rcases patchPlugins_eq_or c1 with he | ⟨htw, x, ws, y, hws, hceq, hoeq⟩
  · rw [he]
    exact h
  · rw [hoeq]
    intro hin
    apply h
    rw [hceq]
    exact infix_mid_embed (reactImp_outside_arrRepl hin)

theorem patchPlugins_idem (c : List Char) :
    patchPlugins (patchPlugins c) = patchPlugins c := by
  rcases patchPlugins_eq_or c with he | ⟨htw, x, ws, y, hws, hceq, hoeq⟩
  · rw [he, he]
  · rw [hoeq]
    apply patchPlugins_of_contains
    apply (containsSub_iff _ _).mpr
    exact infix_mid_of_inner x y ((containsSub_iff _ _).mp (by decide))

theorem patchImport_cases (c : List Char) :
    twImport <:+: patchImport c ∨
    (¬ twImport <:+: patchImport c ∧ ¬ reactImp <:+: patchImport c) := by
  by_cases hA : containsSub twImport c = true
  · rw [patchImport_of_contains hA]
    exact Or.inl ((containsSub_iff _ _).mp hA)
  · have hA' : containsSub twImport c = false := Bool.eq_false_iff.mpr hA
    by_cases hR : reactImp <:+: c
    · obtain ⟨x, y, hc, hp⟩ := patchImport_decomp hA' hR
      left
      rw [hp]
      exact ⟨x ++ reactImp ++ ['\n'], y, by simp [List.append_assoc]⟩
    · right
      rw [patchImport_of_no_react hA' hR]
      exact ⟨fun h => hA ((containsSub_iff _ _).mpr h), hR⟩

theorem patchImport_second_id {c1 : List Char}
    (h : twImport <:+: c1 ∨ (¬ twImport <:+: c1 ∧ ¬ reactImp <:+: c1)) :
    patchImport (patchPlugins c1) = patchPlugins c1 := by
  rcases h with h | ⟨h1, h2⟩
  · exact patchImport_of_contains
      ((containsSub_iff _ _).mpr (twImport_infix_patchPlugins h))
  · exact patchImport_of_no_react
      (Bool.eq_false_iff.mpr
        (fun hx => twImport_not_infix_patchPlugins h1 ((containsSub_iff _ _).mp hx)))
      (reactImp_not_infix_patchPlugins h2)

/-- C2: applying the step-4 patch transformation twice yields exactly the
text that applying it once yields; no duplicate import line and no duplicate
array entry is ever produced. -/
theorem patchBuildConfig_idempotent (c : List Char) :
    patchBuildConfig (patchBuildConfig c) = patchBuildConfig c := by
  show patchPlugins (patchImport (patchPlugins (patchImport c)))
      = patchPlugins (patchImport c)
  rw [patchImport_second_id (patchImport_cases c)]
  exact patchPlugins_idem _

theorem sublist_insert_middle (a b m : List Char) : (a ++ b).Sublist (a ++ m ++ b) := by
  rw [List.append_assoc]
  exact (List.sublist_append_right m b).append_left a

/-- C6 amended: the step-4 patch is a no-op whenever both markers (the
tailwind import line and the `tailwindcss()` call) are already present: both
guards then suppress their insertions and the text is written back as read. -/
theorem patch_noop_both_markers {c : List Char}
    (h1 : containsSub twImport c = true) (h2 : containsSub twCall c = true) :
    patchBuildConfig c = c := by
  show patchPlugins (patchImport c) = c
  rw [patchImport_of_contains h1]
  exact patchPlugins_of_contains h2

/-- Concrete config for the C6 counterexample: the tailwind import marker is
present but `tailwindcss()` is not, and a `plugins:` array pattern exists. -/
def cexC6 : List Char := twImport ++ '\n' :: "plugins: []".data

/-- C6 counterexample: a config containing one of the two markers (the
tailwind import line) on which the step-4 patch is not a no-op - the
`tailwindcss(),` array entry is still inserted. -/
theorem patch_not_noop_single_marker :
    (containsSub twImport cexC6 = true ∨ containsSub twCall cexC6 = true) ∧
    patchBuildConfig cexC6 ≠ cexC6 := by decide

/-- Concrete config for the C6 amended witness: both markers present. -/
def bothC6 : List Char := twImport ++ '\n' :: arrRepl ++ [']']

theorem patch_noop_both_markers_witness :
    (containsSub twImport bothC6 = true ∧ containsSub twCall bothC6 = true) ∧
    patchBuildConfig bothC6 = bothC6 :=
  ⟨⟨by decide, by decide⟩, patch_noop_both_markers (by decide) (by decide)⟩

/-- The pure part of C10: when the text contains neither the react import
string nor any match of the `plugins:` regex, both insertions fall through
and the patch returns the text byte-for-byte unchanged. -/
theorem patchBuildConfig_noop_of_no_anchors {c : List Char}
    (h1 : ¬ reactImp <:+: c) (h2 : hasPluginsMatch c = false) :
    patchBuildConfig c = c := by
  show patchPlugins (patchImport c) = c
  have hc1 : patchImport c = c := by
    by_cases hA : containsSub twImport c = true
    · exact patchImport_of_contains hA
    · exact patchImport_of_no_react (Bool.eq_false_iff.mpr hA) h1
  rw [hc1]
  by_cases hB : containsSub twCall c = true
  · exact patchPlugins_of_contains hB
  · unfold patchPlugins
    rw [if_neg hB]
    exact replacePlugins_of_no_match h2

/-! ### C1: correctness of the patch on a well-formed config -/

/-- `"plugins: [react()]"`, the exact array text C1 requires. -/
def plReact : List Char := "plugins: [react()]".data

theorem allMatchesSingleSpace_tail {c : Char} {rest : List Char}
    (h : allMatchesSingleSpace (c :: rest) = true) :
    allMatchesSingleSpace rest = true := by
  rw [allMatchesSingleSpace, Bool.and_eq_true] at h
  exact h.2

theorem allMatchesSingleSpace_cons_fact {s m t : List Char}
    (hs : allMatchesSingleSpace s = true) (hma : pluginsMatchAt s = some (m, t))
    (hne : s ≠ []) : m = plgColon ++ [' ', '['] := by
  cases s with
  | nil => exact absurd rfl hne
  | cons c rest =>
    rw [allMatchesSingleSpace, hma, Bool.and_eq_true] at hs
    exact of_decide_eq_true hs.1

theorem allMatchesSingleSpace_ws {ws : List Char} (x y : List Char)
    (h : allMatchesSingleSpace (x ++ matchText ws ++ y) = true)
    (hws : ∀ ch ∈ ws, jsWs ch = true) : ws = [' '] := by
  induction x with
  | nil =>
    simp only [List.nil_append] at h
    have hma := pluginsMatchAt_shape y hws
    have hm := allMatchesSingleSpace_cons_fact h hma (by simp [matchText, plgColon])
    unfold matchText at hm
    rw [List.append_assoc] at hm
    have h2 : ws ++ ['['] = [' ', '['] := List.append_cancel_left hm
    rcases ws with _ | ⟨w, ws'⟩
    · simp at h2
    · rcases ws' with _ | ⟨w2, ws''⟩
      · simp at h2
        rw [h2]
      · simp at h2
  | cons a x ih =>
    have hx : (a :: x) ++ matchText ws ++ y = a :: (x ++ matchText ws ++ y) := by simp
    rw [hx] at h
    exact ih (allMatchesSingleSpace_tail h)

/-- C1 amended: for every config text that contains the react import as an
exact line, contains the exact text `plugins: [react()]`, contains neither
the tailwind import nor `tailwindcss()`, and in which every match of the
`plugins:` array pattern has exactly a single space between the colon and
the bracket, the step-4 patch yields a text in which the tailwind import
line immediately follows the react import text, the `tailwindcss(),` entry
stands immediately inside the `plugins` array, and every character of the
original content is preserved in order. -/
theorem patch_correct_on_marked_config {c : List Char}
    (hline : reactImp ∈ splitLines c)
    (hpl : containsSub plReact c = true)
    (hnoimp : containsSub twImport c = false)
    (hnocall : containsSub twCall c = false)
    (hsingle : allMatchesSingleSpace c = true) :
    containsSub (reactImp ++ '\n' :: twImport) (patchBuildConfig c) = true ∧
    containsSub arrRepl (patchBuildConfig c) = true ∧
    isSubseq c (patchBuildConfig c) = true := by
  have hreact : reactImp <:+: c := mem_splitOnChar_infix hline
  obtain ⟨x, y, hc, hp⟩ := patchImport_decomp hnoimp hreact
  have hnc : ¬ twCall <:+: c := fun hh =>
    absurd ((containsSub_iff _ _).mpr hh) (by simp [hnocall])
  have hga : (x ++ reactImp).getLast? = some '\'' := by
    rw [getLast?_append_right (show reactImp ≠ [] by decide)]
    decide
  have hnocall1 : ¬ twCall <:+: x ++ reactImp ++ '\n' :: twImport ++ y := by
    intro hin
    have hin' : twCall <:+: (x ++ reactImp) ++ ('\n' :: twImport) ++ y := by
      simpa [List.append_assoc] using hin
    rcases infix_mid_cases hin' (show '(' ∈ twCall by decide)
        (show '(' ∉ '\n' :: twImport by decide)
        (show ('\n' :: twImport).getLast? = some '\'' by decide)
        (show '\'' ∉ twCall by decide)
        (show twCall.getLast? = some ')' by decide)
        (show ')' ∉ '\n' :: twImport by decide) with h1 | h1
    · apply hnc
      rw [hc]
      exact infixExtL y h1
    · apply hnc
      rw [hc]
      exact infixExtR (x ++ reactImp) h1
  have hplc : plReact <:+: c := (containsSub_iff _ _).mp hpl
  have hplc' : plReact <:+: (x ++ reactImp) ++ y := by
    rw [← hc]
    exact hplc
  have hpl1 : plReact <:+: x ++ reactImp ++ '\n' :: twImport ++ y := by
    rcases infix_split_cases hplc' hga (show '\'' ∉ plReact by decide) with h1 | h1
    · have h2 := infixExtL y (infixExtL ('\n' :: twImport) h1)
      simpa [List.append_assoc] using h2
    · have h2 := infixExtR ((x ++ reactImp) ++ ('\n' :: twImport)) h1
      simpa [List.append_assoc] using h2
  obtain ⟨u, v, hc1pl⟩ := hpl1
  have hc1pl' : x ++ reactImp ++ '\n' :: twImport ++ y
      = u ++ matchText [' '] ++ ("react()]".data ++ v) := by
    rw [← hc1pl, (show plReact = matchText [' '] ++ "react()]".data by decide)]
    simp [List.append_assoc]
  obtain ⟨u', ws', v', hws', heq2, hrr⟩ :=
    replacePlugins_of_match u ("react()]".data ++ v)
      (show ∀ ch ∈ [' '], jsWs ch = true by decide)
  have ho : patchBuildConfig c = u' ++ arrRepl ++ v' := by
    show patchPlugins (patchImport c) = _
    rw [hp]
    unfold patchPlugins
    rw [if_neg (fun hx => hnocall1 ((containsSub_iff _ _).mp hx))]
    rw [hc1pl']
    exact hrr
  have he1eq : x ++ reactImp ++ '\n' :: twImport ++ y = u' ++ matchText ws' ++ v' :=
    hc1pl'.trans heq2
  have hws'single : ws' = [' '] := by
    have hmt : matchText ws' <:+: (x ++ reactImp) ++ ('\n' :: twImport) ++ y := by
      have h2 : matchText ws' <:+: x ++ reactImp ++ '\n' :: twImport ++ y := by
        rw [he1eq]
        exact infix_mid_of_inner u' v' (List.infix_refl _)
      simpa [List.append_assoc] using h2
    have hcol : ':' ∈ matchText ws' := by
      unfold matchText
      exact List.mem_append.mpr (Or.inl (List.mem_append.mpr (Or.inl (by decide))))
    rcases infix_mid_cases hmt hcol
        (show ':' ∉ '\n' :: twImport by decide)
        (show ('\n' :: twImport).getLast? = some '\'' by decide)
        (notMem_matchText hws' (by decide) (by decide) (by decide))
        (getLast?_matchText ws')
        (show '[' ∉ '\n' :: twImport by decide) with h1 | h1
    · obtain ⟨p, q, hpq⟩ := h1
      have hceq2 : c = p ++ matchText ws' ++ (q ++ y) := by
        rw [hc, ← hpq]
        simp [List.append_assoc]
      exact allMatchesSingleSpace_ws p (q ++ y) (by rw [← hceq2]; exact hsingle) hws'
    · obtain ⟨p, q, hpq⟩ := h1
      have hceq2 : c = (x ++ reactImp ++ p) ++ matchText ws' ++ q := by
        rw [hc, ← hpq]
        simp [List.append_assoc]
      exact allMatchesSingleSpace_ws (x ++ reactImp ++ p) q
        (by rw [← hceq2]; exact hsingle) hws'
  subst hws'single
  refine ⟨?_, ?_, ?_⟩
  · rw [ho]
    apply (containsSub_iff _ _).mpr
    have hN1 : (reactImp ++ '\n' :: twImport) <:+: x ++ reactImp ++ '\n' :: twImport ++ y :=
      ⟨x, y, by simp [List.append_assoc]⟩
    rw [he1eq] at hN1
    rcases infix_mid_cases hN1 (show 'm' ∈ reactImp ++ '\n' :: twImport by decide)
        (notMem_matchText (show ∀ ch ∈ [' '], jsWs ch = true by decide)
          (by decide) (by decide) (by decide))
        (getLast?_matchText [' '])
        (show '[' ∉ reactImp ++ '\n' :: twImport by decide)
        (show (reactImp ++ '\n' :: twImport).getLast? = some '\'' by decide)
        (notMem_matchText (show ∀ ch ∈ [' '], jsWs ch = true by decide)
          (by decide) (by decide) (by decide)) with h1 | h1
    · exact infix_mid_embed (Or.inl h1)
    · exact infix_mid_embed (Or.inr h1)
  · rw [ho]
    exact (containsSub_iff _ _).mpr (infix_mid_of_inner u' v' (List.infix_refl _))
  · rw [ho]
    apply isSubseq_of_sublist
    have s1 : c.Sublist (x ++ reactImp ++ '\n' :: twImport ++ y) := by
      rw [hc]
      simp
    have s2 : (x ++ reactImp ++ '\n' :: twImport ++ y).Sublist (u' ++ arrRepl ++ v') := by
      rw [he1eq, (show arrRepl = matchText [' '] ++ arrIns by decide)]
      simp
    exact s1.trans s2

/-- Concrete config for the C1 counterexample: it satisfies all of C1's
stated conditions (exact react import line, exact `plugins: [react()]` text,
neither marker present), but an earlier `plugins:` array pattern carries two
spaces before its bracket; the regex substitution rewrites that whitespace to
a single space, so one character of the original content is lost. -/
def cexC1 : List Char :=
  "import react from '@vitejs/plugin-react'\nplugins:  [x]\nplugins: [react()]\n".data

set_option maxRecDepth 10000 in
/-- C1 counterexample: a config meeting every hypothesis of C1 whose patched
text does not preserve all original characters (the original is not even a
subsequence of the result). -/
theorem patch_can_lose_characters :
    (reactImp ∈ splitLines cexC1 ∧ containsSub plReact cexC1 = true ∧
     containsSub twImport cexC1 = false ∧ containsSub twCall cexC1 = false) ∧
    ¬ (containsSub (reactImp ++ '\n' :: twImport) (patchBuildConfig cexC1) = true ∧
       containsSub arrRepl (patchBuildConfig cexC1) = true ∧
       isSubseq cexC1 (patchBuildConfig cexC1) = true) := by decide

/-- Concrete config for the C1 amended witness. -/
def okC1 : List Char :=
  "import react from '@vitejs/plugin-react'\nexport default plugins: [react()]\n".data

set_option maxRecDepth 10000 in
theorem patch_correct_on_marked_config_witness :
    (reactImp ∈ splitLines okC1 ∧ containsSub plReact okC1 = true ∧
     containsSub twImport okC1 = false ∧ containsSub twCall okC1 = false ∧
     allMatchesSingleSpace okC1 = true) ∧
    (containsSub (reactImp ++ '\n' :: twImport) (patchBuildConfig okC1) = true ∧
     containsSub arrRepl (patchBuildConfig okC1) = true ∧
     isSubseq okC1 (patchBuildConfig okC1) = true) :=
  ⟨⟨by decide, by decide, by decide, by decide, by decide⟩,
   patch_correct_on_marked_config (by decide) (by decide) (by decide) (by decide) (by decide)⟩

/-! ### The six-step pipeline (source lines 40-44, 68-199) -/

/-- The prompt loop of source lines 72-76: ask until the trimmed answer is a
non-empty string (`askQuestion` resolves with `ans.trim()`, line 42; the empty
string is falsy so `while (!projectName)` re-asks).  The inputs are the
successive answers; `none` models a session whose answers never satisfy the
loop (the run would keep prompting). -/
def promptLoop : List (List Char) → Option (List Char)
  | [] => none
  | a :: rest => if trimJs a = [] then promptLoop rest else some (trimJs a)

/-- Whether a POSIX path begins with a slash. -/
def isAbsPath (s : List Char) : Bool := s.head? = some '/'

/-- Stack-based normalisation of path segments: `.` is dropped, `..` pops the
previous segment (at the root of an absolute path it is dropped; in a
relative path it is kept). -/
def normSegs (abs : Bool) : List (List Char) → List (List Char) → List (List Char)
  | stack, [] => stack.reverse
  | stack, seg :: rest =>
    if seg = ['.'] then normSegs abs stack rest
    else if seg = ['.', '.'] then
      match stack with
      | [] => if abs then normSegs abs [] rest else normSegs abs [seg] rest
      | top :: st =>
        if top = ['.', '.'] then normSegs abs (seg :: stack) rest
        else normSegs abs st rest
    else normSegs abs (seg :: stack) rest

/-- Model of Node `path.posix.join` (used at source lines 79-81, 89, 128,
160-161): concatenate the non-empty parts with `/`, then normalise `.` and
`..` segments; faithful for the absolute working-directory paths this
program passes it. -/
def pathJoin (parts : List (List Char)) : List Char :=
  let joined := List.intercalate ['/'] (parts.filter (fun p => ¬ p.isEmpty))
  if joined.isEmpty then ['.']
  else
    let abs := isAbsPath joined
    let segs := (splitOnChar '/' joined).filter (fun s => ¬ s.isEmpty)
    let body := List.intercalate ['/'] (normSegs abs [] segs)
    if abs then '/' :: body
    else if body.isEmpty then ['.'] else body

/-- The `'..'` path part of source line 81. -/
def dotdot : List Char := ['.', '.']

/-- `"@import \"tailwindcss\";\n"`, the full content written to both CSS
entrypoints (source lines 160-161). -/
def cssContent : List Char := "@import \"tailwindcss\";\n".data

/-- Everything external that one run observes: whether the file is the
`require.main` module (source lines 9, 183), the successive prompt answers,
the working directory, each subprocess outcome (step 1 `execSync` success,
the exit codes of the two `npm install` invocations), and the outcome of
each file operation of steps 4 and 5. -/
structure Env where
  isMain : Bool
  inputs : List (List Char)
  cwd : List Char
  scaffoldOk : Bool
  npmInstallCode : Nat
  twInstallCode : Nat
  readConfig : Option (List Char)
  writeConfigOk : Bool
  cssIndexOk : Bool
  cssAppOk : Bool
  priorIndexCss : List Char
  priorAppCss : List Char

/-- The observable events of one `createProject` run. -/
structure Trace where
  scaffoldCmdName : Option (List Char)
  scaffoldCwd : Option (List Char)
  npmCwd : Option (List Char)
  twCwd : Option (List Char)
  installFailLogged : Bool
  twFailLogged : Bool
  patchAttempted : Bool
  configPath : Option (List Char)
  configWriteAttempted : Bool
  configWritten : Option (List Char)
  step4Success : Bool
  step4Warning : Bool
  cssAttempted : Bool
  cssIndexPath : Option (List Char)
  cssAppPath : Option (List Char)
  cssIndexWritten : Option (List Char)
  cssAppWritten : Option (List Char)
  step5Warning : Bool

/-- The all-quiet trace: nothing attempted, nothing logged, nothing written. -/
def emptyTrace : Trace :=
  { scaffoldCmdName := none, scaffoldCwd := none, npmCwd := none, twCwd := none,
    installFailLogged := false, twFailLogged := false,
    patchAttempted := false, configPath := none, configWriteAttempted := false,
    configWritten := none, step4Success := false, step4Warning := false,
    cssAttempted := false, cssIndexPath := none, cssAppPath := none,
    cssIndexWritten := none, cssAppWritten := none, step5Warning := false }

/-- The result of one `createProject` call: whether it hung at the prompt,
whether it threw (a step 1-3 failure rethrown to the caller), the trace, and
the session's name and path. -/
structure CPOut where
  hung : Bool
  threw : Bool
  trace : Trace
  projectName : List Char
  projectPath : List Char

/-- The `createProject` pipeline (source lines 68-180).  The prompt loop
yields the project name; `projectPath` is `path.join(cwd, projectName)` when
`require.main !== module` (the `isGlobal` flag of line 9) and
`path.join(cwd, '..', projectName)` when run as the entry module (lines
79-81).  Steps 1-3 rethrow on failure (lines 93-96, 107-110, 121-124), so
later steps are never reached; step 4 and step 5 catch their own errors and
only warn (lines 150-153, 165-168); step 6 always succeeds. -/
def createProject (e : Env) : CPOut :=
  match promptLoop e.inputs with
  | none =>
    { hung := true, threw := false, trace := emptyTrace,
      projectName := [], projectPath := [] }
  | some nm =>
    let pp := if e.isMain then pathJoin [e.cwd, dotdot, nm] else pathJoin [e.cwd, nm]
    let scwd := if e.isMain then pathJoin [e.cwd, dotdot] else e.cwd
    if e.scaffoldOk then
      if e.npmInstallCode = 0 then
        if e.twInstallCode = 0 then
          { hung := false, threw := false, projectName := nm, projectPath := pp,
            trace :=
            { scaffoldCmdName := some nm, scaffoldCwd := some scwd,
              npmCwd := some pp, twCwd := some pp,
              installFailLogged := false, twFailLogged := false,
              patchAttempted := true,
              configPath := some (pathJoin [pp, "vite.config.js".data]),
              configWriteAttempted := e.readConfig.isSome,
              configWritten :=
                match e.readConfig with
                | some cfg =>
                  if e.writeConfigOk then some (patchBuildConfig cfg) else none
                | none => none,
              step4Success :=
                match e.readConfig with
                | some _ => e.writeConfigOk
                | none => false,
              step4Warning :=
                match e.readConfig with
                | some _ => !e.writeConfigOk
                | none => true,
              cssAttempted := true,
              cssIndexPath := some (pathJoin [pp, "src".data, "index.css".data]),
              cssAppPath := some (pathJoin [pp, "src".data, "App.css".data]),
              cssIndexWritten := if e.cssIndexOk then some cssContent else none,
              cssAppWritten := if e.cssAppOk then some cssContent else none,
              step5Warning := !(e.cssIndexOk && e.cssAppOk) } }
        else
          { hung := false, threw := true, projectName := nm, projectPath := pp,
            trace :=
            { emptyTrace with
              scaffoldCmdName := some nm
              scaffoldCwd := some scwd
              npmCwd := some pp
              twCwd := some pp
              twFailLogged := true } }
      else
        { hung := false, threw := true, projectName := nm, projectPath := pp,
          trace :=
          { emptyTrace with
            scaffoldCmdName := some nm
            scaffoldCwd := some scwd
            npmCwd := some pp
            installFailLogged := true } }
    else
      { hung := false, threw := true, projectName := nm, projectPath := pp,
        trace :=
        { emptyTrace with
          scaffoldCmdName := some nm
          scaffoldCwd := some scwd } }

/-- Source lines 183-195: when run as the entry module the process exits 0
after a completed pipeline and 1 after a caught error; `none` models a run
that never settles (the prompt loop never obtains a name) or module use
(no `process.exit` call). -/
def cliExitCode (e : Env) : Option Nat :=
  if e.isMain then
    if (createProject e).hung then none
    else if (createProject e).threw then some 1 else some 0
  else none

/-- Whether the CLI catch handler printed its "Setup failed" message. -/
def setupFailedLogged (e : Env) : Bool :=
  e.isMain && !(createProject e).hung && (createProject e).threw

/-- How many times a run calls `rl.close()`: the CLI entry calls it exactly
once on the success branch (line 187) and exactly once on the catch branch
(line 192); the module-export branch (lines 196-199) never calls it. -/
def rlCloseCount (e : Env) : Nat :=
  if e.isMain then
    if (createProject e).hung then 0
    else if (createProject e).threw then 1 else 1
  else 0

/-- The interactive readline interface is created exactly once, at module
load (source lines 22-25), on every entry path. -/
def rlOpenCount (_ : Env) : Nat := 1

/-- Whether the modelled run settles (both for the CLI entry and for a
programmatic `createProject()` call). -/
def runTerminates (e : Env) : Bool := !(createProject e).hung

/-- The content of `src/index.css` after the run. -/
def finalIndexCss (e : Env) : List Char :=
  match (createProject e).trace.cssIndexWritten with
  | some c => c
  | none => e.priorIndexCss

/-- The content of `src/App.css` after the run. -/
def finalAppCss (e : Env) : List Char :=
  match (createProject e).trace.cssAppWritten with
  | some c => c
  | none => e.priorAppCss

theorem promptLoop_ne_nil {inputs : List (List Char)} {nm : List Char}
    (h : promptLoop inputs = some nm) : nm ≠ [] := by
  induction inputs with
  | nil => simp [promptLoop] at h
  | cons a rest ih =>
    rw [promptLoop] at h
    by_cases ht : trimJs a = []
    · rw [if_pos ht] at h
      exact ih h
    · rw [if_neg ht] at h
      injection h with h'
      rw [← h']
      exact ht

/-- C4: the prompt loop returns the first answer that is non-empty after
trimming, with exactly that trimming applied (every earlier answer trims to
the empty string and is re-prompted); and whenever the scaffolding
subprocess is invoked the session's projectName is non-empty. -/
theorem promptProjectName_spec :
    (∀ (inputs : List (List Char)) (nm : List Char), promptLoop inputs = some nm →
      nm ≠ [] ∧ ∃ (i : Nat) (a : List Char), inputs[i]? = some a ∧ nm = trimJs a ∧
        ∀ (j : Nat) (b : List Char), j < i → inputs[j]? = some b → trimJs b = []) ∧
    (∀ e : Env, (createProject e).trace.scaffoldCmdName ≠ none →
      (createProject e).projectName ≠ []) := by
  constructor
  · intro inputs
    induction inputs with
    | nil =>
      intro nm h
      simp [promptLoop] at h
    | cons a rest ih =>
      intro nm h
      rw [promptLoop] at h
      by_cases ht : trimJs a = []
      · rw [if_pos ht] at h
        obtain ⟨hne, i, b, h1, h2, h3⟩ := ih nm h
        refine ⟨hne, i + 1, b, by simpa using h1, h2, ?_⟩
        intro j c hj hc
        cases j with
        | zero =>
          simp at hc
          rw [← hc]
          exact ht
        | succ j => exact h3 j c (Nat.lt_of_succ_lt_succ hj) (by simpa using hc)
      · rw [if_neg ht] at h
        injection h with h'
        refine ⟨by rw [← h']; exact ht, 0, a, by simp, h'.symm, ?_⟩
        intro j b hj
        exact absurd hj (Nat.not_lt_zero j)
  · intro e h
    rcases hpr : promptLoop e.inputs with _ | nm
    · refine absurd ?_ h
      unfold createProject
      rw [hpr]
      rfl
    · have hne := promptLoop_ne_nil hpr
      unfold createProject
      rw [hpr]
      dsimp only
      split
      · split
        · split
          · exact hne
          · exact hne
        · exact hne
      · exact hne

/-- C3: a non-zero exit code from the step-2 dependency install makes the
run log the install failure and the final "Setup failed" message, exit with
code 1, and never attempt the config-patch or CSS-write steps. -/
theorem npm_install_failure_fatal (e : Env) (nm : List Char)
    (hmain : e.isMain = true) (hpr : promptLoop e.inputs = some nm)
    (hsc : e.scaffoldOk = true) (hnpm : e.npmInstallCode ≠ 0) :
    cliExitCode e = some 1 ∧
    (createProject e).trace.installFailLogged = true ∧
    setupFailedLogged e = true ∧
    (createProject e).trace.patchAttempted = false ∧
    (createProject e).trace.cssAttempted = false := by
  simp [cliExitCode, setupFailedLogged, createProject, emptyTrace, hpr, hmain, hsc, hnpm]

/-- C8: a failing config read in step 4 is caught locally: the run warns,
still attempts the CSS step, and exits 0 when steps 1-3 succeeded. -/
theorem config_read_failure_degraded (e : Env) (nm : List Char)
    (hmain : e.isMain = true) (hpr : promptLoop e.inputs = some nm)
    (hsc : e.scaffoldOk = true) (hnpm : e.npmInstallCode = 0)
    (htw : e.twInstallCode = 0) (hread : e.readConfig = none) :
    cliExitCode e = some 0 ∧
    (createProject e).trace.patchAttempted = true ∧
    (createProject e).trace.step4Warning = true ∧
    (createProject e).trace.cssAttempted = true := by
  simp [cliExitCode, createProject, hpr, hmain, hsc, hnpm, htw, hread]

/-- C5: when the CSS step's two writes both succeed, both entrypoint files
contain exactly `@import "tailwindcss";\n` afterwards, whatever they
contained before. -/
theorem css_entrypoints_overwritten (e : Env) (nm : List Char)
    (hpr : promptLoop e.inputs = some nm) (hsc : e.scaffoldOk = true)
    (hnpm : e.npmInstallCode = 0) (htw : e.twInstallCode = 0)
    (hidx : e.cssIndexOk = true) (happ : e.cssAppOk = true) :
    finalIndexCss e = cssContent ∧ finalAppCss e = cssContent := by
  simp [finalIndexCss, finalAppCss, createProject, hpr, hsc, hnpm, htw, hidx, happ]

/-- C10: whenever the step-4 read succeeds the step writes the file back
(here with the write succeeding, the written content is the patched text);
when the text contains neither the react import nor any `plugins:` array
pattern the write is byte-for-byte the text that was read, step 4 reports
success and no warning is raised. -/
theorem patch_step_always_writes (e : Env) (nm cfg : List Char)
    (hpr : promptLoop e.inputs = some nm) (hsc : e.scaffoldOk = true)
    (hnpm : e.npmInstallCode = 0) (htw : e.twInstallCode = 0)
    (hread : e.readConfig = some cfg) (hw : e.writeConfigOk = true) :
    (createProject e).trace.configWriteAttempted = true ∧
    (createProject e).trace.configWritten = some (patchBuildConfig cfg) ∧
    (¬ reactImp <:+: cfg → hasPluginsMatch cfg = false →
      (createProject e).trace.configWritten = some cfg ∧
      (createProject e).trace.step4Success = true ∧
      (createProject e).trace.step4Warning = false) := by
  have key : (createProject e).trace.configWriteAttempted = true ∧
      (createProject e).trace.configWritten = some (patchBuildConfig cfg) ∧
      (createProject e).trace.step4Success = true ∧
      (createProject e).trace.step4Warning = false := by
    simp [createProject, hpr, hsc, hnpm, htw, hread, hw]
  refine ⟨key.1, key.2.1, fun h1 h2 => ⟨?_, key.2.2.1, key.2.2.2⟩⟩
  rw [key.2.1, patchBuildConfig_noop_of_no_anchors h1 h2]

/-- A representative environment: CLI entry, answer `demo`, working
directory `/home/user`, every subprocess succeeding, config read failing
(irrelevant to most claims), CSS writes succeeding. -/
def baseEnv : Env :=
  { isMain := true, inputs := [("demo".data)], cwd := ("/home/user".data),
    scaffoldOk := true, npmInstallCode := 0, twInstallCode := 0,
    readConfig := none, writeConfigOk := true,
    cssIndexOk := true, cssAppOk := true,
    priorIndexCss := ("old index".data), priorAppCss := ("old app".data) }

/-- C7 amended: the session's projectPath equals `path.join(cwd, '..',
projectName)` when run as the entry module and `path.join(cwd, projectName)`
when loaded as a library; it is computed once from the prompted name, and
every recorded use of it (both install working directories, the config path
and the two CSS paths) is derived from that same value. -/
theorem projectPath_formula (e : Env) (nm : List Char)
    (hpr : promptLoop e.inputs = some nm) :
    (createProject e).projectName = nm ∧
    (createProject e).projectPath =
      (if e.isMain then pathJoin [e.cwd, dotdot, nm] else pathJoin [e.cwd, nm]) ∧
    (∀ d, (createProject e).trace.npmCwd = some d → d = (createProject e).projectPath) ∧
    (∀ d, (createProject e).trace.twCwd = some d → d = (createProject e).projectPath) ∧
    (∀ p, (createProject e).trace.configPath = some p →
      p = pathJoin [(createProject e).projectPath, ("vite.config.js".data)]) ∧
    (∀ p, (createProject e).trace.cssIndexPath = some p →
      p = pathJoin [(createProject e).projectPath, ("src".data), ("index.css".data)]) ∧
    (∀ p, (createProject e).trace.cssAppPath = some p →
      p = pathJoin [(createProject e).projectPath, ("src".data), ("App.css".data)]) := by
  unfold createProject
  rw [hpr]
  dsimp only
  split
  · split
    · split
      · simp
      · simp [emptyTrace]
    · simp [emptyTrace]
  · simp [emptyTrace]

/-- C7 counterexample: in a CLI run (`require.main === module`) the computed
projectPath is not `path.join(cwd, projectName)`: with cwd `/home/user` and
name `demo` the code computes `/home/demo`, not `/home/user/demo`. -/
theorem projectPath_not_cwd_join :
    (createProject baseEnv).hung = false ∧
    (createProject baseEnv).projectPath ≠
      pathJoin [baseEnv.cwd, (createProject baseEnv).projectName] := by decide

theorem projectPath_formula_witness :
    promptLoop baseEnv.inputs = some ("demo".data) ∧
    (createProject baseEnv).projectName = ("demo".data) ∧
    (createProject baseEnv).projectPath =
      (if baseEnv.isMain then pathJoin [baseEnv.cwd, dotdot, ("demo".data)]
       else pathJoin [baseEnv.cwd, ("demo".data)]) := by
  have h := projectPath_formula baseEnv ("demo".data) (by decide)
  exact ⟨by decide, h.1, h.2.1⟩

/-- The library-use environment for the C9 counterexample. -/
def envC9 : Env := { baseEnv with isMain := false }

/-- C9 counterexample: when the file is loaded as a module and
`createProject` runs to completion, the readline interface is never closed:
the run terminates with zero `rl.close()` calls, not one. -/
theorem rl_not_closed_in_module_use :
    runTerminates envC9 = true ∧ rlCloseCount envC9 ≠ 1 := by decide

/-- C9 amended: in a CLI run the readline interface is opened exactly once
at startup and, whenever the run terminates (success or fatal failure),
closed exactly once. -/
theorem rl_closed_once_cli (e : Env) (hmain : e.isMain = true)
    (hterm : (createProject e).hung = false) :
    rlOpenCount e = 1 ∧ rlCloseCount e = 1 := by
  refine ⟨rfl, ?_⟩
  unfold rlCloseCount
  rw [hmain]
  simp [hterm]

theorem rl_closed_once_cli_witness :
    baseEnv.isMain = true ∧ (createProject baseEnv).hung = false ∧
    rlOpenCount baseEnv = 1 ∧ rlCloseCount baseEnv = 1 := by
  have h := rl_closed_once_cli baseEnv (by decide) (by decide)
  exact ⟨by decide, by decide, h.1, h.2⟩

/-- The environment for the C3 witness: the step-2 install exits 1. -/
def envC3 : Env := { baseEnv with npmInstallCode := 1 }

theorem npm_install_failure_fatal_witness :
    envC3.npmInstallCode ≠ 0 ∧
    cliExitCode envC3 = some 1 ∧
    (createProject envC3).trace.patchAttempted = false ∧
    (createProject envC3).trace.cssAttempted = false := by
  have h := npm_install_failure_fatal envC3 ("demo".data)
    (by decide) (by decide) (by decide) (by decide)
  exact ⟨by decide, h.1, h.2.2.2.1, h.2.2.2.2⟩

theorem config_read_failure_degraded_witness :
    baseEnv.readConfig = none ∧
    cliExitCode baseEnv = some 0 ∧
    (createProject baseEnv).trace.step4Warning = true ∧
    (createProject baseEnv).trace.cssAttempted = true := by
  have h := config_read_failure_degraded baseEnv ("demo".data)
    (by decide) (by decide) (by decide) (by decide) (by decide) (by decide)
  exact ⟨by decide, h.1, h.2.2.1, h.2.2.2⟩

theorem css_entrypoints_overwritten_witness :
    promptLoop baseEnv.inputs = some ("demo".data) ∧
    finalIndexCss baseEnv = cssContent ∧ finalAppCss baseEnv = cssContent := by
  have h := css_entrypoints_overwritten baseEnv ("demo".data)
    (by decide) (by decide) (by decide) (by decide) (by decide) (by decide)
  exact ⟨by decide, h.1, h.2⟩

/-- A config text with no react import and no `plugins:` pattern. -/
def cfgC10 : List Char := "export default".data

/-- The environment for the C10 witness: the config read succeeds with a
text carrying neither insertion anchor. -/
def envC10 : Env := { baseEnv with readConfig := some cfgC10 }

theorem patch_step_always_writes_witness :
    envC10.readConfig = some cfgC10 ∧
    (createProject envC10).trace.configWriteAttempted = true ∧
    (createProject envC10).trace.configWritten = some cfgC10 ∧
    (createProject envC10).trace.step4Success = true ∧
    (createProject envC10).trace.step4Warning = false := by
  have hni : ¬ reactImp <:+: cfgC10 := fun hh =>
    absurd ((containsSub_iff _ _).mpr hh) (by decide)
  have h := patch_step_always_writes envC10 ("demo".data) cfgC10
    (by decide) (by decide) (by decide) (by decide) (by decide) (by decide)
  have h3 := h.2.2 hni (by decide)
  exact ⟨by decide, h.1, h3.1, h3.2.1, h3.2.2⟩

/-- The input list for the C4 witness: a whitespace-only answer, then a
padded `demo`. -/
def inputsC4 : List (List Char) := [(" ".data), ("  demo ".data)]

theorem promptProjectName_spec_witness :
    promptLoop inputsC4 = some ("demo".data) ∧
    ("demo".data ≠ [] ∧ ∃ (i : Nat) (a : List Char), inputsC4[i]? = some a ∧
      ("demo".data : List Char) = trimJs a ∧
      ∀ (j : Nat) (b : List Char), j < i → inputsC4[j]? = some b → trimJs b = []) :=
  ⟨by decide, promptProjectName_spec.1 inputsC4 ("demo".data) (by decide)⟩
